import Mathlib

/-!
Verification of the timer-driven packet transmission scheduler in
`src/transmitter.c` (functions `add_packet_timer`, `rx_events_free_all`,
`tx_main`).

Modelling conventions:
* Machine integers `int`/`time_t` are modelled as `Int` (no arithmetic in the
  source comes near overflow: the only arithmetic is decrementing `repeat` and
  copying `timeout`).
* Fallible system calls (`malloc`, `timerfd_create`, `rx_events_add`,
  `timerfd_settime`, `epoll_ctl`, `epoll_wait`, `sylkie_sender_send_packet`,
  `read`) are driven by explicit oracles: a `Bool` per call site saying
  whether that call succeeds.  The code under verification is the cleanup /
  bookkeeping around those calls, which is deterministic given the oracles.
* Resources are tracked in an explicit `World`: every timer fd ever created,
  every fd passed to `close`, every `free` of an `rx_event` wrapper (as an
  identity, so a double `free` shows up as a duplicate), the registry list,
  the set of fds registered with the epoll instance, and the log of sender
  invocations.
* Freed heap memory is modelled as retaining its old contents: when the C
  code dereferences a pointer to a freed `rx_event` (which it does on some
  error paths), the model reads the old field values, which is what the
  naive execution of the C would typically do.
* `GENERIC_LIST` (from `cmds.h`, outside the provided sources) is modelled
  from the spec: the Event Registry is an insertion-ordered collection with
  append (`rx_events_add`), removal-by-identity (`rx_events_rm`) and a
  teardown that releases the remaining nodes (`rx_events_free`).
* The epoll instance fd `efd` itself is not a timer handle; `close(efd)`
  is not tracked (the claims are about the per-command timer resources).
-/

/-- The C `struct packet_command` (from `cmds.h`), as used by the transmitter:
`sender` and `pkt` are opaque capabilities (modelled as tags), `timeout`
and `repeat` drive the scheduling policy.  `repeat` is mutable state owned
by the scheduler for the run. -/
structure packet_command where
  sender : Nat
  pkt : Nat
  timeout : Int
  «repeat» : Int
  deriving Repr, DecidableEq

instance : Inhabited packet_command := ⟨⟨0, 0, 0, 0⟩⟩

/-- The C `struct timespec`: seconds and nanoseconds. -/
structure timespec where
  tv_sec : Int
  tv_nsec : Int
  deriving Repr, DecidableEq

/-- The C `struct itimerspec`: periodic interval and initial expiration. -/
structure itimerspec where
  it_interval : timespec
  it_value : timespec
  deriving Repr, DecidableEq

/-- The arm-parameter computation of `add_packet_timer`
(`src/transmitter.c` lines 67-102): computes the `itimerspec` passed to
`timerfd_settime` and the updated command (the admission-time decrement of
`repeat`).  Translated branch by branch from the source. -/
def arm_params (cmd : packet_command) : itimerspec × packet_command :=
  if cmd.repeat = 0 then
    -- repeat == 0: no interval; value = (timeout >= 0 ? timeout : 0, 1)
    (⟨⟨0, 0⟩, ⟨if cmd.timeout ≥ 0 then cmd.timeout else 0, 1⟩⟩, cmd)
  else if cmd.repeat = 1 then
    -- repeat == 1: same arm values, and --cmd->repeat
    (⟨⟨0, 0⟩, ⟨if cmd.timeout ≥ 0 then cmd.timeout else 0, 1⟩⟩,
      { cmd with «repeat» := cmd.repeat - 1 })
  else
    -- repeat > 1 or repeat < 0: interval from timeout (10000ns fallback when
    -- timeout <= 0), value = (0, 1); --cmd->repeat when repeat > 0
    (⟨if cmd.timeout ≤ 0 then ⟨0, 10000⟩ else ⟨cmd.timeout, 0⟩, ⟨0, 1⟩⟩,
      if cmd.repeat > 0 then { cmd with «repeat» := cmd.repeat - 1 } else cmd)

/-- The C `struct rx_event` plus its registry node identity.  `wid` is the heap
identity of the `malloc`ed wrapper (used to detect double `free`); `fd` is
the timerfd; `cmdIdx` models the `cmd` pointer as an index into the run's
command table. -/
structure rx_event where
  wid : Nat
  fd : Nat
  cmdIdx : Nat
  deriving Repr, DecidableEq

/-- The resource state of a run: the command table (mutable because the
scheduler owns each command's `repeat` counter), allocation counters, the
log of created/closed fds and freed wrappers, the Event Registry
(`struct rx_events`), the set of fds registered with the epoll instance,
and the log of sender invocations (`(sender, pkt)` per call). -/
structure World where
  cmds : List packet_command
  nextWid : Nat
  nextFd : Nat
  createdFds : List Nat
  closedFds : List Nat
  frees : List Nat
  registry : List rx_event
  epollSet : List Nat
  sends : List (Nat × Nat)
  waitCalls : Nat
  deriving Repr, DecidableEq

/-- The world at the top of `tx_main`, before admission. -/
def initialWorld (cmds : List packet_command) : World :=
  ⟨cmds, 0, 0, [], [], [], [], [], [], 0⟩

/-- Success/failure of each fallible call inside one `add_packet_timer`
invocation, in source order. -/
structure AdmissionOracle where
  mallocOk : Bool
  timerfdOk : Bool
  addOk : Bool
  settimeOk : Bool
  epollOk : Bool
  deriving Repr, DecidableEq

/-- The all-successful admission oracle. -/
def happyAdmission : AdmissionOracle := ⟨true, true, true, true, true⟩

/-- The function `add_packet_timer` (`src/transmitter.c` lines 46-117), for the command at
`cmdIdx` of the world's command table.  Returns the new registry item
(`NULL` = `none` on failure) and the updated world.  Mirrors the source's
cleanup on each failure path:
* `malloc` failure: nothing created, return `NULL`;
* `timerfd_create` failure: `free(rx_event)`, return `NULL`;
* `rx_events_add` failure: `free(rx_event)`, return `NULL` (the created
  timerfd is *not* closed);
* `timerfd_settime` failure: `free(rx_event)`, return `NULL` (the registry
  item just added is *not* removed and the fd is *not* closed);
* `epoll_ctl(ADD)` failure: same as the settime failure path. -/
def add_packet_timer (cmdIdx : Nat) (o : AdmissionOracle) (w : World) :
    Option rx_event × World :=
  if !o.mallocOk then
    (none, w)
  else
    let wid := w.nextWid
    let w1 := { w with nextWid := wid + 1 }
    if !o.timerfdOk then
      (none, { w1 with frees := w1.frees ++ [wid] })
    else
      let fd := w1.nextFd
      let w2 := { w1 with nextFd := fd + 1, createdFds := w1.createdFds ++ [fd] }
      let ev : rx_event := ⟨wid, fd, cmdIdx⟩
      if !o.addOk then
        (none, { w2 with frees := w2.frees ++ [wid] })
      else
        let w3 := { w2 with registry := w2.registry ++ [ev] }
        let cmd := w3.cmds.getD cmdIdx default
        let w4 := { w3 with cmds := w3.cmds.set cmdIdx (arm_params cmd).2 }
        if !o.settimeOk then
          (none, { w4 with frees := w4.frees ++ [wid] })
        else if !o.epollOk then
          (none, { w4 with frees := w4.frees ++ [wid] })
        else
          (some ev, { w4 with epollSet := w4.epollSet ++ [fd] })

/-- The function `rx_events_free_all` (`src/transmitter.c` lines 119-128): for every item
still in the registry, `close` its fd and `free` its wrapper, then release
the list itself. -/
def rx_events_free_all (w : World) : World :=
  { w with
    closedFds := w.closedFds ++ w.registry.map (fun ev => ev.fd)
    frees := w.frees ++ w.registry.map (fun ev => ev.wid)
    registry := [] }

/-- Success/failure of the fallible calls made while dispatching one ready
epoll entry: the sender invocation, `epoll_ctl(DEL)` on retirement, and the
`read` that drains the timerfd. -/
structure DispatchFlags where
  sendOk : Bool
  delOk : Bool
  drainOk : Bool
  deriving Repr, DecidableEq

/-- One entry of the array returned by `epoll_wait`.  `tag` models
`ev.data.ptr`: `none` is a `NULL` pointer, `some none` an item whose
`value` is `NULL`, and `some (some wid)` the registry item for the event
with wrapper identity `wid`.  (A tag whose `wid` is no longer in the
registry would be a dangling pointer in the C; the model routes it to the
same fatal path as the `NULL` checks.) -/
structure ReadyEntry where
  tag : Option (Option Nat)
  fl : DispatchFlags
  deriving Repr, DecidableEq

/-- One iteration of the while loop: the outcome of `epoll_wait`
(`waitOk = false` models `nfds < 0`) and the ready entries it reports, in
delivery order. -/
structure WaitCycle where
  waitOk : Bool
  readies : List ReadyEntry
  deriving Repr, DecidableEq

/-- The loop-local state of `tx_main`: the resource world plus the
`exiting` and `closing` flags. -/
structure LState where
  w : World
  exiting : Bool
  closing : Bool
  deriving Repr, DecidableEq

/-- Lines 185-194 of `tx_main`: drain the timerfd (`read`); on success,
close and free the event if this firing retired it (`closing` set). -/
def drainAndClose (en : ReadyEntry) (ev : rx_event) (s : LState) : LState :=
  if !en.fl.drainOk then
    { s with exiting := true }
  else if s.closing then
    { s with
      w := { s.w with
        closedFds := s.w.closedFds ++ [ev.fd]
        frees := s.w.frees ++ [ev.wid] }
      closing := false }
  else
    s

/-- The body of the dispatch `for` loop of `tx_main`
(`src/transmitter.c` lines 163-198) for one ready entry.  Every `break` in
the source first sets `exiting = 1`, so the caller stops on `exiting`. -/
def dispatchOne (en : ReadyEntry) (s : LState) : LState :=
  match en.tag with
  | none => { s with exiting := true }          -- !ev.data.ptr
  | some none => { s with exiting := true }     -- !rx_item->value
  | some (some wid) =>
    match s.w.registry.find? (fun ev => ev.wid == wid) with
    | none => { s with exiting := true }        -- dangling tag (see above)
    | some ev =>
      -- rx_event->cmd is always non-NULL for events created by admission,
      -- so the `if (rx_event->cmd)` guard is always taken here.
      let cmd := s.w.cmds.getD ev.cmdIdx default
      let s1 := { s with w := { s.w with sends := s.w.sends ++ [(cmd.sender, cmd.pkt)] } }
      if !en.fl.sendOk then
        { s1 with exiting := true }             -- if (err) { exiting = 1; break; }
      else
        if cmd.repeat > 0 then
          -- --rx_event->cmd->repeat, then fall through to the read
          let s2 := { s1 with w := { s1.w with
            cmds := s1.w.cmds.set ev.cmdIdx { cmd with «repeat» := cmd.repeat - 1 } } }
          drainAndClose en ev s2
        else if cmd.repeat = 0 then
          -- retire: rx_events_rm, then epoll_ctl(DEL), then closing = 1
          let s2 := { s1 with w := { s1.w with
            registry := s1.w.registry.filter (fun e => e.wid ≠ ev.wid) } }
          if !en.fl.delOk then
            { s2 with exiting := true }         -- fd stays registered; read skipped
          else
            let s3 := { s2 with
              w := { s2.w with epollSet := s2.w.epollSet.filter (fun f => f ≠ ev.fd) }
              closing := true }
            drainAndClose en ev s3
        else
          drainAndClose en ev s1

/-- The dispatch `for` loop over the entries of one `epoll_wait` return:
processes entries in order, stopping at the first one that sets
`exiting` (every `break` in the source is preceded by `exiting = 1`). -/
def dispatchList : List ReadyEntry → LState → LState
  | [], s => s
  | en :: rest, s =>
    let s1 := dispatchOne en s
    if s1.exiting then s1 else dispatchList rest s1

/-- The `while (evs->head && !exiting)` loop of `tx_main`
(lines 156-200), driven by the finite trace of `epoll_wait` outcomes in
`cycles`.  If the trace is exhausted while the registry is non-empty the
run is still blocked in `epoll_wait`; the model returns the state reached
so far. -/
def txLoop : List WaitCycle → LState → LState
  | [], s => s
  | c :: rest, s =>
    if s.w.registry.isEmpty || s.exiting then s
    else
      let s1 := { s with w := { s.w with waitCalls := s.w.waitCalls + 1 } }
      if !c.waitOk then
        { s1 with exiting := true }
      else
        txLoop rest (dispatchList c.readies s1)

/-- The admission `for` loop of `tx_main` (lines 146-153): admit the
commands at indices `i, i+1, ...` (with `n` commands left), consuming one
oracle per command (`happyAdmission` when the oracle list runs short).
Returns `false` as soon as one `add_packet_timer` returns `NULL`. -/
def admissionList : List AdmissionOracle → Nat → Nat → World → Bool × World
  | _, _, 0, w => (true, w)
  | os, i, n + 1, w =>
    match add_packet_timer i (os.headD happyAdmission) w with
    | (none, w1) => (false, w1)
    | (some _, w1) => admissionList os.tail (i + 1) n w1

/-- The function `tx_main` (`src/transmitter.c` lines 130-206).  `initOk` models the
`rx_events_init` allocation; `os` are the per-command admission oracles
and `cycles` the `epoll_wait` trace.  Returns the C return value
(`-1` admission/init failure, `1` fatal loop exit, `0` success) together
with the final resource world. -/
def tx_main (initOk : Bool) (cmds : List packet_command)
    (os : List AdmissionOracle) (cycles : List WaitCycle) : Int × World :=
  if !initOk then
    (-1, initialWorld cmds)
  else
    match admissionList os 0 cmds.length (initialWorld cmds) with
    | (false, w) => (-1, rx_events_free_all w)
    | (true, w) =>
      let s := txLoop cycles ⟨w, false, false⟩
      ((if s.exiting then 1 else 0), rx_events_free_all s.w)

/-- The happy dispatch flags. -/
def happyFlags : DispatchFlags := ⟨true, true, true⟩

/-- A wait cycle delivering exactly the event with wrapper identity `wid`,
with every call succeeding. -/
def happyCycle (wid : Nat) : WaitCycle := ⟨true, [⟨some (some wid), happyFlags⟩]⟩

example : arm_params ⟨0, 0, 5, 0⟩ = (⟨⟨0, 0⟩, ⟨5, 1⟩⟩, ⟨0, 0, 5, 0⟩) := by decide
example : arm_params ⟨0, 0, 5, 1⟩ = (⟨⟨0, 0⟩, ⟨5, 1⟩⟩, ⟨0, 0, 5, 0⟩) := by decide
example : arm_params ⟨0, 0, 5, 3⟩ = (⟨⟨5, 0⟩, ⟨0, 1⟩⟩, ⟨0, 0, 5, 2⟩) := by decide
example : arm_params ⟨0, 0, 0, -1⟩ = (⟨⟨0, 10000⟩, ⟨0, 1⟩⟩, ⟨0, 0, 0, -1⟩) := by decide
example :
    add_packet_timer 0 ⟨true, true, false, true, true⟩
        (initialWorld [⟨0, 0, 0, 0⟩]) =
      (none, ⟨[⟨0, 0, 0, 0⟩], 1, 1, [0], [], [0], [], [], [], 0⟩) := by decide

/-! ### Helper lemmas -/

/-- The C idiom `(t >= 0) ? t : 0` is `max t 0`. -/
theorem if_nonneg_eq_max (t : Int) : (if t ≥ 0 then t else 0) = max t 0 := by
  split <;> omega

/-- C4: the function `add_packet_timer` computes the arm parameters exactly as specified:
for `repeat == 0` or `repeat == 1` the initial delay is `max(timeout, 0)`
seconds (at the one-nanosecond granularity nudge of C10), no periodic
interval, and for `repeat == 1` the counter is decremented to `0`; for
`repeat > 1` or `repeat < 0` the initial expiration is the smallest positive
duration `(0s, 1ns)`, the interval is `timeout` when `timeout > 0` and the
minimal non-zero `(0s, 10000ns)` otherwise, and the counter is decremented
once exactly when `repeat > 0`. -/
theorem arm_params_policy (cmd : packet_command) :
    (cmd.repeat = 0 →
      arm_params cmd = (⟨⟨0, 0⟩, ⟨max cmd.timeout 0, 1⟩⟩, cmd)) ∧
    (cmd.repeat = 1 →
      arm_params cmd =
        (⟨⟨0, 0⟩, ⟨max cmd.timeout 0, 1⟩⟩, { cmd with «repeat» := 0 })) ∧
    (1 < cmd.repeat ∨ cmd.repeat < 0 →
      arm_params cmd =
        (⟨if 0 < cmd.timeout then ⟨cmd.timeout, 0⟩ else ⟨0, 10000⟩, ⟨0, 1⟩⟩,
          if 0 < cmd.repeat then { cmd with «repeat» := cmd.repeat - 1 }
          else cmd)) := by
  refine ⟨fun h0 => ?_, fun h1 => ?_, fun h => ?_⟩
  · simp [arm_params, h0, if_nonneg_eq_max]
  · simp [arm_params, h1, if_nonneg_eq_max]
  · have h0 : ¬ cmd.repeat = 0 := by omega
    have h1 : ¬ cmd.repeat = 1 := by omega
    rcases le_or_lt cmd.timeout 0 with ht | ht
    · simp [arm_params, h0, h1, ht, not_lt.2 ht]
    · simp [arm_params, h0, h1, not_le.2 ht, ht]

theorem arm_params_policy_witness :
    (1 < (5 : Int) ∨ (5 : Int) < 0) ∧
      arm_params ⟨3, 4, 7, 5⟩ = (⟨⟨7, 0⟩, ⟨0, 1⟩⟩, ⟨3, 4, 7, 4⟩) := by
  refine ⟨by norm_num, ?_⟩
  have h := (arm_params_policy ⟨3, 4, 7, 5⟩).2.2 (by norm_num)
  simpa using h

/-- C10: in every branch of the arm-parameter computation the armed initial
expiration has `tv_nsec = 1`, hence is never the all-zero (disarming)
value; for `repeat == 0` or `repeat == 1` the effective initial delay is
`max(timeout, 0)` seconds plus one nanosecond, and a command with
`timeout == 0` is still armed with a non-zero value and fires. -/
theorem arm_params_value_nonzero (cmd : packet_command) :
    (arm_params cmd).1.it_value.tv_nsec = 1 ∧
    (arm_params cmd).1.it_value ≠ ⟨0, 0⟩ ∧
    (cmd.repeat = 0 ∨ cmd.repeat = 1 →
      (arm_params cmd).1.it_value = ⟨max cmd.timeout 0, 1⟩) ∧
    (cmd.timeout = 0 → (arm_params cmd).1.it_value = ⟨0, 1⟩) := by
  rcases eq_or_ne cmd.repeat 0 with h0 | h0
  · refine ⟨?_, ?_, ?_, ?_⟩ <;>
      simp [arm_params, h0, if_nonneg_eq_max] <;> intro h <;> simp [h]
  · rcases eq_or_ne cmd.repeat 1 with h1 | h1
    · refine ⟨?_, ?_, ?_, ?_⟩ <;>
        simp [arm_params, h0, h1, if_nonneg_eq_max] <;> intro h <;> simp [h]
    · refine ⟨?_, ?_, ?_, ?_⟩ <;> simp [arm_params, h0, h1]

theorem arm_params_value_nonzero_witness :
    (arm_params ⟨0, 0, 0, 0⟩).1.it_value.tv_nsec = 1 ∧
      (arm_params ⟨0, 0, 0, 0⟩).1.it_value = ⟨0, 1⟩ := by
  obtain ⟨h1, _, _, h4⟩ := arm_params_value_nonzero ⟨0, 0, 0, 0⟩
  exact ⟨h1, h4 rfl⟩

/-- C9: tearing down an empty registry closes no fd, frees no wrapper, and
leaves the world unchanged (and, being a total function, never fails). -/
theorem rx_events_free_all_empty (w : World) (h : w.registry = []) :
    rx_events_free_all w = w := by
  rcases w with ⟨c, nw, nf, cr, cl, fr, reg, ep, sn, wc⟩
  simp only at h
  subst h
  simp [rx_events_free_all]

theorem rx_events_free_all_empty_witness :
    rx_events_free_all (initialWorld []) = initialWorld [] :=
  rx_events_free_all_empty (initialWorld []) rfl

/-- C8: for the empty command list (with the initial registry allocation
succeeding), `tx_main` returns the success indicator `0` without making a
single `epoll_wait` call and without invoking the sender. -/
theorem tx_main_empty (initOk : Bool) (h : initOk = true)
    (cycles : List WaitCycle) :
    tx_main initOk [] [] cycles = (0, initialWorld []) ∧
    (tx_main initOk [] [] cycles).2.waitCalls = 0 ∧
    (tx_main initOk [] [] cycles).2.sends = [] := by
  subst h
  cases cycles <;> exact ⟨rfl, rfl, rfl⟩

theorem tx_main_empty_witness :
    tx_main true [] [] [⟨true, []⟩] = (0, initialWorld []) ∧
    (tx_main true [] [] [⟨true, []⟩]).2.waitCalls = 0 ∧
    (tx_main true [] [] [⟨true, []⟩]).2.sends = [] :=
  tx_main_empty true rfl [⟨true, []⟩]

/-- `add_packet_timer` never invokes the sender. -/
theorem add_packet_timer_sends (cmdIdx : Nat) (o : AdmissionOracle) (w : World) :
    (add_packet_timer cmdIdx o w).2.sends = w.sends := by
  rcases o with ⟨m, t, a, st, ep⟩
  cases m <;> cases t <;> cases a <;> cases st <;> cases ep <;>
    simp [add_packet_timer]

/-- The admission loop never invokes the sender. -/
theorem admissionList_sends (os : List AdmissionOracle) (i n : Nat) (w : World) :
    (admissionList os i n w).2.sends = w.sends := by
  induction n generalizing os i w with
  | zero => rfl
  | succ n ih =>
    rcases h : add_packet_timer i (os.headD happyAdmission) w with ⟨r, w1⟩
    have hs : w1.sends = w.sends := by
      have := add_packet_timer_sends i (os.headD happyAdmission) w
      rw [h] at this
      exact this
    simp only [List.headD_eq_head?_getD] at h
    cases r <;> simp [admissionList, h, ih, hs]

/-- C2, counterexample: a single command whose registry insertion
(`rx_events_add`) fails.  `add_packet_timer` frees the wrapper and returns
`NULL`, but the timerfd it has just created is never closed: after
`tx_main` returns, fd `0` was created and is not among the closed fds, so
the failing command's resources are *not* fully reclaimed. -/
theorem admission_leak_cex :
    (tx_main true [⟨0, 0, 0, 0⟩] [⟨true, true, false, true, true⟩] []).1 = -1 ∧
    0 ∈ (tx_main true [⟨0, 0, 0, 0⟩] [⟨true, true, false, true, true⟩] []).2.createdFds ∧
    0 ∉ (tx_main true [⟨0, 0, 0, 0⟩] [⟨true, true, false, true, true⟩] []).2.closedFds := by
  decide

/-- C2, amended: if admission of the k-th command fails, the run aborts
with `-1` before any packet is sent, and the caller's teardown closes the
fd and frees the wrapper of every event still in the registry — in
particular of all k-1 already-admitted commands.  But the failing
command's own resources are not always reclaimed: on registry-insertion
failure its timerfd is never closed (only fd `0` of the two created fds is
closed in the concrete two-command run below), and on arming
(`timerfd_settime`) failure its wrapper is freed twice — once by
`add_packet_timer` and again by the teardown through the dangling registry
entry (`frees = [0, 0]` below). -/
theorem admission_failure_cleanup (cmds : List packet_command)
    (os : List AdmissionOracle) (cycles : List WaitCycle)
    (h : (admissionList os 0 cmds.length (initialWorld cmds)).1 = false) :
    tx_main true cmds os cycles =
      (-1, rx_events_free_all (admissionList os 0 cmds.length (initialWorld cmds)).2) ∧
    (tx_main true cmds os cycles).2.sends = [] ∧
    (∀ ev ∈ (admissionList os 0 cmds.length (initialWorld cmds)).2.registry,
      ev.fd ∈ (tx_main true cmds os cycles).2.closedFds ∧
      ev.wid ∈ (tx_main true cmds os cycles).2.frees) ∧
    (tx_main true [⟨0, 0, 0, 5⟩, ⟨0, 0, 0, 5⟩]
        [happyAdmission, ⟨true, true, false, true, true⟩] []).2.createdFds = [0, 1] ∧
    (tx_main true [⟨0, 0, 0, 5⟩, ⟨0, 0, 0, 5⟩]
        [happyAdmission, ⟨true, true, false, true, true⟩] []).2.closedFds = [0] ∧
    (tx_main true [⟨0, 0, 0, 5⟩] [⟨true, true, true, false, true⟩] []).2.frees =
      [0, 0] := by
  rcases hA : admissionList os 0 cmds.length (initialWorld cmds) with ⟨b, w⟩
  rw [hA] at h
  simp only at h
  subst h
  have htx : tx_main true cmds os cycles = (-1, rx_events_free_all w) := by
    simp [tx_main, hA]
  have hsends : w.sends = [] := by
    have h2 := admissionList_sends os 0 cmds.length (initialWorld cmds)
    rw [hA] at h2
    simpa [initialWorld] using h2
  refine ⟨by rw [htx], ?_, ?_, by decide, by decide, by decide⟩
  · rw [htx]
    simpa [rx_events_free_all] using hsends
  · intro ev hev
    simp only at hev
    rw [htx]
    constructor
    · simp [rx_events_free_all]
      exact Or.inr ⟨ev, hev, rfl⟩
    · simp [rx_events_free_all]
      exact Or.inr ⟨ev, hev, rfl⟩

theorem admission_failure_cleanup_witness :
    (admissionList [⟨true, true, false, true, true⟩] 0
        ([⟨0, 0, 0, 0⟩] : List packet_command).length
        (initialWorld [⟨0, 0, 0, 0⟩])).1 = false ∧
    (tx_main true [⟨0, 0, 0, 0⟩] [⟨true, true, false, true, true⟩] []).2.sends = [] := by
  refine ⟨by decide, ?_⟩
  exact (admission_failure_cleanup [⟨0, 0, 0, 0⟩] [⟨true, true, false, true, true⟩]
    [] (by decide)).2.1

/-- C5: if the sender reports an error on a firing, that dispatch appends
only the failing send to the log and dispatches none of the remaining
ready entries of that wait cycle (the resulting state is exactly the old
one with the one send logged and `exiting` set); a loop state with
`exiting` set performs no further wait cycles; and any run whose loop
ended with `exiting` set returns the fatal indicator `1` and an empty
registry. -/
theorem send_failure_halts :
    (∀ (s : LState) (en : ReadyEntry) (rest : List ReadyEntry) (wid : Nat)
        (ev : rx_event),
      en.tag = some (some wid) →
      s.w.registry.find? (fun e => e.wid == wid) = some ev →
      en.fl.sendOk = false →
      dispatchList (en :: rest) s =
        { s with
          w := { s.w with sends := s.w.sends ++
            [((s.w.cmds.getD ev.cmdIdx default).sender,
              (s.w.cmds.getD ev.cmdIdx default).pkt)] }
          exiting := true }) ∧
    (∀ (cycles : List WaitCycle) (s : LState), s.exiting = true →
      txLoop cycles s = s) ∧
    (∀ (cmds : List packet_command) (os : List AdmissionOracle)
        (cycles : List WaitCycle) (w : World),
      admissionList os 0 cmds.length (initialWorld cmds) = (true, w) →
      (txLoop cycles ⟨w, false, false⟩).exiting = true →
      (tx_main true cmds os cycles).1 = 1 ∧
      (tx_main true cmds os cycles).2.registry = []) := by
  refine ⟨?_, ?_, ?_⟩
  · intro s en rest wid ev htag hfind hsend
    have hd : dispatchOne en s =
        { s with
          w := { s.w with sends := s.w.sends ++
            [((s.w.cmds.getD ev.cmdIdx default).sender,
              (s.w.cmds.getD ev.cmdIdx default).pkt)] }
          exiting := true } := by
      simp [dispatchOne, htag, hfind, hsend]
    simp [dispatchList, hd]
  · intro cycles s h
    cases cycles <;> simp [txLoop, h]
  · intro cmds os cycles w hA hexit
    constructor
    · simp [tx_main, hA, hexit]
    · simp [tx_main, hA, rx_events_free_all]

theorem send_failure_halts_witness :
    ((⟨some (some 0), ⟨false, true, true⟩⟩ : ReadyEntry).tag = some (some 0) ∧
      ([⟨0, 0, 1⟩] : List rx_event).find? (fun e => e.wid == 0) = some ⟨0, 0, 1⟩) ∧
    dispatchList
        [⟨some (some 0), ⟨false, true, true⟩⟩, ⟨some (some 0), happyFlags⟩]
        ⟨⟨[⟨5, 6, 0, 2⟩, ⟨7, 8, 0, 2⟩], 1, 1, [0], [], [], [⟨0, 0, 1⟩], [0], [], 1⟩,
          false, false⟩ =
      ⟨⟨[⟨5, 6, 0, 2⟩, ⟨7, 8, 0, 2⟩], 1, 1, [0], [], [], [⟨0, 0, 1⟩], [0],
          [(7, 8)], 1⟩, true, false⟩ := by
  refine ⟨⟨rfl, by decide⟩, ?_⟩
  have h := send_failure_halts.1
    ⟨⟨[⟨5, 6, 0, 2⟩, ⟨7, 8, 0, 2⟩], 1, 1, [0], [], [], [⟨0, 0, 1⟩], [0], [], 1⟩,
      false, false⟩
    ⟨some (some 0), ⟨false, true, true⟩⟩ [⟨some (some 0), happyFlags⟩] 0 ⟨0, 0, 1⟩
    rfl (by decide) rfl
  simpa using h

/-- C3, counterexample: one command with `repeat == 1`; on its only firing
the send succeeds, the event is removed from the registry and deregistered,
but the drain (`read`) fails.  The `break` skips the `close`/`free` of the
event being retired, and since it has already left the registry the final
`rx_events_free_all` cannot reclaim it either: after the failed run the
created timerfd `0` was never closed and the wrapper never freed. -/
theorem fatal_teardown_cex :
    (tx_main true [⟨0, 0, 0, 1⟩] [happyAdmission]
        [⟨true, [⟨some (some 0), ⟨true, true, false⟩⟩]⟩]).1 = 1 ∧
    (tx_main true [⟨0, 0, 0, 1⟩] [happyAdmission]
        [⟨true, [⟨some (some 0), ⟨true, true, false⟩⟩]⟩]).2.createdFds = [0] ∧
    (tx_main true [⟨0, 0, 0, 1⟩] [happyAdmission]
        [⟨true, [⟨some (some 0), ⟨true, true, false⟩⟩]⟩]).2.closedFds = [] ∧
    (tx_main true [⟨0, 0, 0, 1⟩] [happyAdmission]
        [⟨true, [⟨some (some 0), ⟨true, true, false⟩⟩]⟩]).2.frees = [] := by
  decide

/-- C3, amended: on any loop exit (fatal or not) the unconditional
teardown closes the fd and frees the wrapper of every event still in the
registry, and the run ends with an empty registry; but an event that was
being retired — already removed from the registry — when the fatal error
struck is not reclaimed: in the concrete run below (deregistration
`epoll_ctl(DEL)` failure on the final firing) the created fd is never
closed, the wrapper never freed, and the fd even stays registered with the
multiplexer. -/
theorem fatal_teardown (cmds : List packet_command)
    (os : List AdmissionOracle) (cycles : List WaitCycle) (w : World)
    (hA : admissionList os 0 cmds.length (initialWorld cmds) = (true, w)) :
    (tx_main true cmds os cycles).2.registry = [] ∧
    (∀ ev ∈ (txLoop cycles ⟨w, false, false⟩).w.registry,
      ev.fd ∈ (tx_main true cmds os cycles).2.closedFds ∧
      ev.wid ∈ (tx_main true cmds os cycles).2.frees) ∧
    (tx_main true [⟨0, 0, 0, 1⟩] [happyAdmission]
        [⟨true, [⟨some (some 0), ⟨true, false, true⟩⟩]⟩]).1 = 1 ∧
    (tx_main true [⟨0, 0, 0, 1⟩] [happyAdmission]
        [⟨true, [⟨some (some 0), ⟨true, false, true⟩⟩]⟩]).2.closedFds = [] ∧
    (tx_main true [⟨0, 0, 0, 1⟩] [happyAdmission]
        [⟨true, [⟨some (some 0), ⟨true, false, true⟩⟩]⟩]).2.frees = [] ∧
    (tx_main true [⟨0, 0, 0, 1⟩] [happyAdmission]
        [⟨true, [⟨some (some 0), ⟨true, false, true⟩⟩]⟩]).2.epollSet = [0] := by
  refine ⟨?_, ?_, by decide, by decide, by decide, by decide⟩
  · simp [tx_main, hA, rx_events_free_all]
  · intro ev hev
    constructor
    · simp [tx_main, hA, rx_events_free_all]
      exact Or.inr ⟨ev, hev, rfl⟩
    · simp [tx_main, hA, rx_events_free_all]
      exact Or.inr ⟨ev, hev, rfl⟩

theorem fatal_teardown_witness :
    admissionList [happyAdmission] 0 ([⟨0, 0, 0, -1⟩] : List packet_command).length
        (initialWorld [⟨0, 0, 0, -1⟩]) =
      (true, ⟨[⟨0, 0, 0, -1⟩], 1, 1, [0], [], [], [⟨0, 0, 0⟩], [0], [], 0⟩) ∧
    (tx_main true [⟨0, 0, 0, -1⟩] [happyAdmission] [⟨false, []⟩]).2.registry = [] := by
  refine ⟨by decide, ?_⟩
  exact (fatal_teardown [⟨0, 0, 0, -1⟩] [happyAdmission] [⟨false, []⟩]
    ⟨[⟨0, 0, 0, -1⟩], 1, 1, [0], [], [], [⟨0, 0, 0⟩], [0], [], 0⟩ (by decide)).1

/-- Reading `getD` after `set` at the written (in-range) index. -/
theorem getD_set_self {α : Type _} (a d : α) :
    ∀ (l : List α) (i : Nat), i < l.length → (l.set i a).getD i d = a
  | [], i, h => absurd h (by simp)
  | _ :: _, 0, _ => rfl
  | _ :: xs, i + 1, h => getD_set_self a d xs i (by simpa using h)

/-- Reading `getD` after `set` at a different index. -/
theorem getD_set_ne {α : Type _} (a d : α) :
    ∀ (l : List α) (i j : Nat), i ≠ j → (l.set i a).getD j d = l.getD j d
  | [], _, _, _ => by simp
  | _ :: _, 0, 0, h => absurd rfl h
  | _ :: _, 0, _ + 1, _ => rfl
  | _ :: _, _ + 1, 0, _ => rfl
  | _ :: xs, i + 1, j + 1, h => getD_set_ne a d xs i j (fun e => h (by rw [e]))

/-- The drain/close tail of a dispatch step never touches the command table. -/
theorem drainAndClose_cmds (en : ReadyEntry) (ev : rx_event) (s : LState) :
    (drainAndClose en ev s).w.cmds = s.w.cmds := by
  rcases hdr : en.fl.drainOk with _ | _
  · simp [drainAndClose, hdr]
  · rcases hcl : s.closing with _ | _ <;> simp [drainAndClose, hdr, hcl]

/-- The drain/close tail never touches the registry. -/
theorem drainAndClose_registry (en : ReadyEntry) (ev : rx_event) (s : LState) :
    (drainAndClose en ev s).w.registry = s.w.registry := by
  rcases hdr : en.fl.drainOk with _ | _
  · simp [drainAndClose, hdr]
  · rcases hcl : s.closing with _ | _ <;> simp [drainAndClose, hdr, hcl]

/-- The drain/close tail never touches the multiplexer registration set. -/
theorem drainAndClose_epollSet (en : ReadyEntry) (ev : rx_event) (s : LState) :
    (drainAndClose en ev s).w.epollSet = s.w.epollSet := by
  rcases hdr : en.fl.drainOk with _ | _
  · simp [drainAndClose, hdr]
  · rcases hcl : s.closing with _ | _ <;> simp [drainAndClose, hdr, hcl]

/-- The drain/close tail never invokes the sender. -/
theorem drainAndClose_sends (en : ReadyEntry) (ev : rx_event) (s : LState) :
    (drainAndClose en ev s).w.sends = s.w.sends := by
  rcases hdr : en.fl.drainOk with _ | _
  · simp [drainAndClose, hdr]
  · rcases hcl : s.closing with _ | _ <;> simp [drainAndClose, hdr, hcl]

/-- The drain/close tail sets `exiting` exactly when the drain fails. -/
theorem drainAndClose_exiting (en : ReadyEntry) (ev : rx_event) (s : LState) :
    (drainAndClose en ev s).exiting = (s.exiting || !en.fl.drainOk) := by
  rcases hdr : en.fl.drainOk with _ | _
  · simp [drainAndClose, hdr]
  · rcases hcl : s.closing with _ | _ <;> simp [drainAndClose, hdr, hcl]

/-- C7: the repeat counter is mutated only downward by the scheduler and
never crosses below zero: at admission it follows the `arm_params` policy
(unchanged when negative), and in each dispatch step every command's
counter is non-increasing, stays non-negative if it was non-negative, and
is untouched when negative; moreover an event whose command has
`repeat < 0` is never retired by the counter logic — a fault-free firing
leaves the registry and the command table unchanged and just performs the
send. -/
theorem repeat_counter_monotone :
    (∀ cmd : packet_command,
      (arm_params cmd).2.repeat ≤ cmd.repeat ∧
      (0 ≤ cmd.repeat → 0 ≤ (arm_params cmd).2.repeat) ∧
      (cmd.repeat < 0 → (arm_params cmd).2 = cmd)) ∧
    (∀ (en : ReadyEntry) (s : LState) (i : Nat),
      ((dispatchOne en s).w.cmds.getD i default).repeat ≤
        (s.w.cmds.getD i default).repeat ∧
      (0 ≤ (s.w.cmds.getD i default).repeat →
        0 ≤ ((dispatchOne en s).w.cmds.getD i default).repeat) ∧
      ((s.w.cmds.getD i default).repeat < 0 →
        (dispatchOne en s).w.cmds.getD i default = s.w.cmds.getD i default)) ∧
    (∀ (en : ReadyEntry) (s : LState) (wid : Nat) (ev : rx_event),
      s.exiting = false →
      en.tag = some (some wid) →
      s.w.registry.find? (fun e => e.wid == wid) = some ev →
      (s.w.cmds.getD ev.cmdIdx default).repeat < 0 →
      en.fl.sendOk = true → en.fl.drainOk = true →
      (dispatchOne en s).w.registry = s.w.registry ∧
      (dispatchOne en s).w.cmds = s.w.cmds ∧
      (dispatchOne en s).w.sends = s.w.sends ++
        [((s.w.cmds.getD ev.cmdIdx default).sender,
          (s.w.cmds.getD ev.cmdIdx default).pkt)] ∧
      (dispatchOne en s).exiting = false) := by
  refine ⟨?_, ?_, ?_⟩
  · intro cmd
    rcases eq_or_ne cmd.repeat 0 with h0 | h0
    · have ha : (arm_params cmd).2 = cmd := by simp [arm_params, h0]
      rw [ha]
      exact ⟨le_refl _, fun h => h, fun _ => rfl⟩
    · rcases eq_or_ne cmd.repeat 1 with h1 | h1
      · have ha : (arm_params cmd).2 = { cmd with «repeat» := cmd.repeat - 1 } := by
          simp [arm_params, h0, h1]
        rw [ha]
        refine ⟨?_, fun h => ?_, fun h => absurd h (by omega)⟩
        · show cmd.repeat - 1 ≤ cmd.repeat
          omega
        · show (0 : Int) ≤ cmd.repeat - 1
          omega
      · rcases lt_trichotomy cmd.repeat 0 with hn | hn | hn
        · have hng : ¬ cmd.repeat > 0 := by omega
          have ha : (arm_params cmd).2 = cmd := by simp [arm_params, h0, h1, hng]
          rw [ha]
          exact ⟨le_refl _, fun h => h, fun _ => rfl⟩
        · exact absurd hn h0
        · have ha : (arm_params cmd).2 = { cmd with «repeat» := cmd.repeat - 1 } := by
            simp [arm_params, h0, h1, hn]
          rw [ha]
          refine ⟨?_, fun h => ?_, fun h => absurd h (by omega)⟩
          · show cmd.repeat - 1 ≤ cmd.repeat
            omega
          · show (0 : Int) ≤ cmd.repeat - 1
            omega
  · intro en s i
    rcases htag : en.tag with _ | tg
    · simp [dispatchOne, htag]
    · rcases tg with _ | wid
      · simp [dispatchOne, htag]
      · rcases hfind : s.w.registry.find? (fun e => e.wid == wid) with _ | ev
        · simp [dispatchOne, htag, hfind]
        · rcases hsend : en.fl.sendOk with _ | _
          · simp [dispatchOne, htag, hfind, hsend]
          · rcases lt_trichotomy (s.w.cmds.getD ev.cmdIdx default).repeat 0
              with hr | hr | hr
            · have h1 : ¬ 0 < (s.w.cmds.getD ev.cmdIdx default).repeat := by omega
              have h2 : ¬ (s.w.cmds.getD ev.cmdIdx default).repeat = 0 := by omega
              simp only [List.getD_eq_getElem?_getD] at h1 h2
              simp [dispatchOne, htag, hfind, hsend, h1, h2, drainAndClose_cmds]
            · have h1 : ¬ 0 < (s.w.cmds.getD ev.cmdIdx default).repeat := by omega
              have h2 := hr
              simp only [List.getD_eq_getElem?_getD] at h1 h2
              rcases hdel : en.fl.delOk with _ | _ <;>
                simp [dispatchOne, htag, hfind, hsend, h1, h2, hdel,
                  drainAndClose_cmds]
            · rcases Nat.lt_or_ge ev.cmdIdx s.w.cmds.length with hlen | hlen
              · have h2 := hr
                simp only [List.getD_eq_getElem?_getD] at h2
                have hcm : (dispatchOne en s).w.cmds =
                    s.w.cmds.set ev.cmdIdx
                      { s.w.cmds.getD ev.cmdIdx default with
                        «repeat» := (s.w.cmds.getD ev.cmdIdx default).repeat - 1 } := by
                  simp [dispatchOne, htag, hfind, hsend, h2, drainAndClose_cmds,
                    List.getD_eq_getElem?_getD]
                rw [hcm]
                rcases eq_or_ne ev.cmdIdx i with hi | hi
                · subst hi
                  rw [getD_set_self _ _ _ _ hlen]
                  refine ⟨?_, fun h => ?_, fun h => absurd h (by omega)⟩
                  · show (s.w.cmds.getD ev.cmdIdx default).repeat - 1 ≤
                      (s.w.cmds.getD ev.cmdIdx default).repeat
                    omega
                  · show (0 : Int) ≤ (s.w.cmds.getD ev.cmdIdx default).repeat - 1
                    omega
                · rw [getD_set_ne _ _ _ _ _ hi]
                  exact ⟨le_refl _, fun h => h, fun _ => rfl⟩
              · have hD : s.w.cmds.getD ev.cmdIdx default = default := by
                  simp [List.getD_eq_getElem?_getD, List.getElem?_eq_none hlen]
                rw [hD] at hr
                exact absurd hr (by decide)
  · intro en s wid ev hex htag hfind hneg hsend hdrain
    have h1 : ¬ 0 < (s.w.cmds.getD ev.cmdIdx default).repeat := by omega
    have h2 : ¬ (s.w.cmds.getD ev.cmdIdx default).repeat = 0 := by omega
    simp only [List.getD_eq_getElem?_getD] at h1 h2
    simp [dispatchOne, htag, hfind, hsend, h1, h2, drainAndClose_cmds,
      drainAndClose_registry, drainAndClose_sends, drainAndClose_exiting,
      hex, hdrain, List.getD_eq_getElem?_getD]

theorem repeat_counter_monotone_witness :
    ((⟨0, 0, 0, -3⟩ : packet_command).repeat < 0 ∧
      (arm_params ⟨0, 0, 0, -3⟩).2 = ⟨0, 0, 0, -3⟩) ∧
    (0 ≤ (⟨0, 0, 0, 2⟩ : packet_command).repeat ∧
      0 ≤ (arm_params ⟨0, 0, 0, 2⟩).2.repeat) := by
  constructor
  · exact ⟨by decide, (repeat_counter_monotone.1 ⟨0, 0, 0, -3⟩).2.2 (by decide)⟩
  · exact ⟨by decide, (repeat_counter_monotone.1 ⟨0, 0, 0, 2⟩).2.1 (by decide)⟩

/-- The drain/close tail never touches the allocation counters. -/
theorem drainAndClose_nextWid (en : ReadyEntry) (ev : rx_event) (s : LState) :
    (drainAndClose en ev s).w.nextWid = s.w.nextWid := by
  rcases hdr : en.fl.drainOk with _ | _
  · simp [drainAndClose, hdr]
  · rcases hcl : s.closing with _ | _ <;> simp [drainAndClose, hdr, hcl]

/-- The drain/close tail never creates fds. -/
theorem drainAndClose_nextFd (en : ReadyEntry) (ev : rx_event) (s : LState) :
    (drainAndClose en ev s).w.nextFd = s.w.nextFd := by
  rcases hdr : en.fl.drainOk with _ | _
  · simp [drainAndClose, hdr]
  · rcases hcl : s.closing with _ | _ <;> simp [drainAndClose, hdr, hcl]

/-- The spec's registry/multiplexer invariant: a Scheduled Event is present
in the Event Registry iff its timer fd is currently registered with the
epoll instance. -/
def RegMux (w : World) : Prop :=
  ∀ f : Nat, (∃ ev ∈ w.registry, ev.fd = f) ↔ f ∈ w.epollSet

/-- Well-formedness maintained by the scheduler: registry entries have
pairwise distinct wrapper ids and distinct fds, and every id/fd (also in
the multiplexer set) is below its allocation counter. -/
def WF (w : World) : Prop :=
  w.registry.Pairwise (fun a b => a.wid ≠ b.wid ∧ a.fd ≠ b.fd) ∧
  (∀ ev ∈ w.registry, ev.wid < w.nextWid ∧ ev.fd < w.nextFd) ∧
  (∀ f ∈ w.epollSet, f < w.nextFd)

/-- Both `WF` and `RegMux` only depend on the registry, the multiplexer set and
the allocation counters. -/
theorem WF_RegMux_transfer (w w' : World)
    (hreg : w'.registry = w.registry) (hep : w'.epollSet = w.epollSet)
    (hnw : w'.nextWid = w.nextWid) (hnf : w'.nextFd = w.nextFd)
    (h : WF w ∧ RegMux w) : WF w' ∧ RegMux w' := by
  unfold WF RegMux
  rw [hreg, hep, hnw, hnf]
  exact h

/-- C6, counterexample: when `timerfd_settime` fails, `add_packet_timer`
returns `NULL` with the event still in the registry but its fd never
registered with the multiplexer — the iff invariant is broken at that
return. -/
theorem regmux_cex :
    (add_packet_timer 0 ⟨true, true, true, false, true⟩
        (initialWorld [⟨0, 0, 0, 0⟩])).1 = none ∧
    ¬ RegMux (add_packet_timer 0 ⟨true, true, true, false, true⟩
        (initialWorld [⟨0, 0, 0, 0⟩])).2 := by
  have hreg : (add_packet_timer 0 ⟨true, true, true, false, true⟩
      (initialWorld [⟨0, 0, 0, 0⟩])).2.registry = [⟨0, 0, 0⟩] := by decide
  have hep : (add_packet_timer 0 ⟨true, true, true, false, true⟩
      (initialWorld [⟨0, 0, 0, 0⟩])).2.epollSet = [] := by decide
  refine ⟨by decide, fun h => ?_⟩
  have h0 := (h 0).1 ⟨⟨0, 0, 0⟩, by rw [hreg]; simp, rfl⟩
  rw [hep] at h0
  simp at h0

/-- C6, amended: the registry/multiplexer iff-invariant is preserved by
every *successful* `add_packet_timer` return and by every dispatch step
whose deregistration (if one happens) succeeds; the failure returns of
`add_packet_timer` after registry insertion are exactly the points where
it breaks (see the counterexample). -/
theorem regmux_invariant :
    (∀ (cmdIdx : Nat) (o : AdmissionOracle) (w : World) (ev : rx_event)
        (w' : World),
      WF w → RegMux w →
      add_packet_timer cmdIdx o w = (some ev, w') →
      WF w' ∧ RegMux w') ∧
    (∀ (en : ReadyEntry) (s : LState),
      WF s.w → RegMux s.w → en.fl.delOk = true →
      WF (dispatchOne en s).w ∧ RegMux (dispatchOne en s).w) := by
  constructor
  · intro cmdIdx o w ev w' hwf hrm heq
    rcases o with ⟨m, t, a, st, ep⟩
    cases m <;> cases t <;> cases a <;> cases st <;> cases ep <;>
      simp [add_packet_timer] at heq
    obtain ⟨hev, hw⟩ := heq
    subst hev
    subst hw
    obtain ⟨hpw, hbound, hepb⟩ := hwf
    constructor
    · refine ⟨?_, ?_, ?_⟩
      · rw [List.pairwise_append]
        refine ⟨hpw, by simp, ?_⟩
        intro x hx y hy
        simp only [List.mem_singleton] at hy
        subst hy
        obtain ⟨h1, h2⟩ := hbound x hx
        exact ⟨by simp <;> omega, by simp <;> omega⟩
      · intro e he
        rcases List.mem_append.1 he with he | he
        · obtain ⟨h1, h2⟩ := hbound e he
          exact ⟨by simp <;> omega, by simp <;> omega⟩
        · simp only [List.mem_singleton] at he
          subst he
          exact ⟨by simp <;> omega, by simp <;> omega⟩
      · intro f hf
        rcases List.mem_append.1 hf with hf | hf
        · have := hepb f hf
          simp only []
          simp <;> omega
        · simp only [List.mem_singleton] at hf
          simp <;> omega
    · intro f
      simp only [List.mem_append, List.mem_singleton]
      constructor
      · rintro ⟨e, he | he, hfd⟩
        · exact Or.inl ((hrm f).1 ⟨e, he, hfd⟩)
        · subst he
          exact Or.inr hfd.symm
      · rintro (hf | hf)
        · obtain ⟨e, he, hfd⟩ := (hrm f).2 hf
          exact ⟨e, Or.inl he, hfd⟩
        · subst hf
          exact ⟨⟨w.nextWid, w.nextFd, cmdIdx⟩, Or.inr rfl, rfl⟩
  · intro en s hwf hrm hdel
    rcases htag : en.tag with _ | tg
    · exact WF_RegMux_transfer s.w _ (by simp [dispatchOne, htag])
        (by simp [dispatchOne, htag]) (by simp [dispatchOne, htag])
        (by simp [dispatchOne, htag]) ⟨hwf, hrm⟩
    · rcases tg with _ | wid
      · exact WF_RegMux_transfer s.w _ (by simp [dispatchOne, htag])
          (by simp [dispatchOne, htag]) (by simp [dispatchOne, htag])
          (by simp [dispatchOne, htag]) ⟨hwf, hrm⟩
      · rcases hfind : s.w.registry.find? (fun e => e.wid == wid) with _ | ev
        · exact WF_RegMux_transfer s.w _ (by simp [dispatchOne, htag, hfind])
            (by simp [dispatchOne, htag, hfind])
            (by simp [dispatchOne, htag, hfind])
            (by simp [dispatchOne, htag, hfind]) ⟨hwf, hrm⟩
        · rcases hsend : en.fl.sendOk with _ | _
          · exact WF_RegMux_transfer s.w _
              (by simp [dispatchOne, htag, hfind, hsend])
              (by simp [dispatchOne, htag, hfind, hsend])
              (by simp [dispatchOne, htag, hfind, hsend])
              (by simp [dispatchOne, htag, hfind, hsend]) ⟨hwf, hrm⟩
          · rcases lt_trichotomy (s.w.cmds.getD ev.cmdIdx default).repeat 0
              with hr | hr | hr
            · have h1 : ¬ 0 < (s.w.cmds.getD ev.cmdIdx default).repeat := by omega
              have h2 : ¬ (s.w.cmds.getD ev.cmdIdx default).repeat = 0 := by omega
              simp only [List.getD_eq_getElem?_getD] at h1 h2
              exact WF_RegMux_transfer s.w _
                (by simp [dispatchOne, htag, hfind, hsend, h1, h2,
                  drainAndClose_registry])
                (by simp [dispatchOne, htag, hfind, hsend, h1, h2,
                  drainAndClose_epollSet])
                (by simp [dispatchOne, htag, hfind, hsend, h1, h2,
                  drainAndClose_nextWid])
                (by simp [dispatchOne, htag, hfind, hsend, h1, h2,
                  drainAndClose_nextFd]) ⟨hwf, hrm⟩
            · -- retirement: the event leaves both the registry and the
              -- multiplexer set
              have h2 := hr
              have h1 : ¬ 0 < (s.w.cmds.getD ev.cmdIdx default).repeat := by omega
              simp only [List.getD_eq_getElem?_getD] at h1 h2
              have hmem : ev ∈ s.w.registry := List.mem_of_find?_eq_some hfind
              have hwid : ev.wid = wid := by
                have := List.find?_some hfind
                simpa using this
              have hreg2 : (dispatchOne en s).w.registry =
                  s.w.registry.filter (fun e => e.wid ≠ ev.wid) := by
                simp [dispatchOne, htag, hfind, hsend, h1, h2, hdel,
                  drainAndClose_registry]
              have hep2 : (dispatchOne en s).w.epollSet =
                  s.w.epollSet.filter (fun f => f ≠ ev.fd) := by
                simp [dispatchOne, htag, hfind, hsend, h1, h2, hdel,
                  drainAndClose_epollSet]
              have hnw2 : (dispatchOne en s).w.nextWid = s.w.nextWid := by
                simp [dispatchOne, htag, hfind, hsend, h1, h2, hdel,
                  drainAndClose_nextWid]
              have hnf2 : (dispatchOne en s).w.nextFd = s.w.nextFd := by
                simp [dispatchOne, htag, hfind, hsend, h1, h2, hdel,
                  drainAndClose_nextFd]
              obtain ⟨hpw, hbound, hepb⟩ := hwf
              have hsym : Symmetric (fun a b : rx_event =>
                  a.wid ≠ b.wid ∧ a.fd ≠ b.fd) :=
                fun a b h => ⟨h.1.symm, h.2.symm⟩
              constructor
              · refine ⟨?_, ?_, ?_⟩
                · rw [hreg2]
                  exact List.Pairwise.sublist (List.filter_sublist _) hpw
                · intro e he
                  rw [hreg2] at he
                  rw [hnw2, hnf2]
                  exact hbound e (List.mem_of_mem_filter he)
                · intro f hf
                  rw [hep2] at hf
                  rw [hnf2]
                  exact hepb f (List.mem_of_mem_filter hf)
              · intro f
                rw [hreg2, hep2]
                constructor
                · rintro ⟨e, he, hfd⟩
                  rw [List.mem_filter] at he
                  obtain ⟨hemem, hene⟩ := he
                  have hne : e ≠ ev := by
                    intro hcon
                    subst hcon
                    simp at hene
                  have hrel := (hpw.forall hsym) hemem hmem hne
                  rw [List.mem_filter]
                  refine ⟨(hrm f).1 ⟨e, hemem, hfd⟩, ?_⟩
                  simp only [ne_eq, decide_not, Bool.not_eq_eq_eq_not,
                    Bool.not_true, decide_eq_false_iff_not]
                  rw [← hfd]
                  exact hrel.2
                · intro hf
                  rw [List.mem_filter] at hf
                  obtain ⟨hfmem, hfne⟩ := hf
                  obtain ⟨e, hemem, hfd⟩ := (hrm f).2 hfmem
                  have hfne' : f ≠ ev.fd := by
                    simpa using hfne
                  have hne : e ≠ ev := by
                    intro hcon
                    subst hcon
                    exact hfne' hfd.symm
                  have hrel := (hpw.forall hsym) hemem hmem hne
                  refine ⟨e, ?_, hfd⟩
                  rw [List.mem_filter]
                  refine ⟨hemem, ?_⟩
                  simpa using hrel.1
            · have h2 := hr
              simp only [List.getD_eq_getElem?_getD] at h2
              exact WF_RegMux_transfer s.w _
                (by simp [dispatchOne, htag, hfind, hsend, h2,
                  drainAndClose_registry])
                (by simp [dispatchOne, htag, hfind, hsend, h2,
                  drainAndClose_epollSet])
                (by simp [dispatchOne, htag, hfind, hsend, h2,
                  drainAndClose_nextWid])
                (by simp [dispatchOne, htag, hfind, hsend, h2,
                  drainAndClose_nextFd]) ⟨hwf, hrm⟩

theorem regmux_invariant_witness :
    WF (add_packet_timer 0 happyAdmission (initialWorld [⟨0, 0, 0, 0⟩])).2 ∧
    RegMux (add_packet_timer 0 happyAdmission (initialWorld [⟨0, 0, 0, 0⟩])).2 := by
  have hwf : WF (initialWorld [⟨0, 0, 0, 0⟩]) := by
    refine ⟨?_, ?_, ?_⟩ <;> simp [initialWorld]
  have hrm : RegMux (initialWorld [⟨0, 0, 0, 0⟩]) := by
    intro f
    simp [initialWorld]
  exact regmux_invariant.1 0 happyAdmission (initialWorld [⟨0, 0, 0, 0⟩])
    ⟨0, 0, 0⟩ (add_packet_timer 0 happyAdmission (initialWorld [⟨0, 0, 0, 0⟩])).2
    hwf hrm (by decide)

/-- The loop exits immediately once the registry is empty. -/
theorem txLoop_empty_registry (cycles : List WaitCycle) (s : LState)
    (h : s.w.registry = []) : txLoop cycles s = s := by
  cases cycles with
  | nil => rfl
  | cons c rest => simp [txLoop, h]

/-- The loop state of a single-command run whose event (wid 0, fd 0) is
live with current counter `r`. -/
def midW (sd pk : Nat) (t r : Int) (sends0 : List (Nat × Nat)) (wc : Nat) :
    World :=
  ⟨[⟨sd, pk, t, r⟩], 1, 1, [0], [], [], [⟨0, 0, 0⟩], [0], sends0, wc⟩

/-- One fault-free firing with a positive counter: send and decrement. -/
theorem step_pos (sd pk : Nat) (t r : Int) (sends0 : List (Nat × Nat))
    (wc : Nat) (rest : List WaitCycle) (hr : 0 < r) :
    txLoop (happyCycle 0 :: rest) ⟨midW sd pk t r sends0 wc, false, false⟩ =
      txLoop rest
        ⟨midW sd pk t (r - 1) (sends0 ++ [(sd, pk)]) (wc + 1), false, false⟩ := by
  simp [txLoop, dispatchList, dispatchOne, drainAndClose, happyCycle,
    happyFlags, midW, hr]

/-- One fault-free firing with counter `0`: send, retire, and exit the
loop (the registry is now empty). -/
theorem step_zero (sd pk : Nat) (t : Int) (sends0 : List (Nat × Nat))
    (wc : Nat) (rest : List WaitCycle) :
    txLoop (happyCycle 0 :: rest) ⟨midW sd pk t 0 sends0 wc, false, false⟩ =
      ⟨⟨[⟨sd, pk, t, 0⟩], 1, 1, [0], [0], [0], [], [],
          sends0 ++ [(sd, pk)], wc + 1⟩, false, false⟩ := by
  have h1 : txLoop (happyCycle 0 :: rest) ⟨midW sd pk t 0 sends0 wc, false, false⟩ =
      txLoop rest ⟨⟨[⟨sd, pk, t, 0⟩], 1, 1, [0], [0], [0], [], [],
        sends0 ++ [(sd, pk)], wc + 1⟩, false, false⟩ := by
    simp [txLoop, dispatchList, dispatchOne, drainAndClose, happyCycle,
      happyFlags, midW]
  rw [h1, txLoop_empty_registry _ _ rfl]

/-- A single live event admitted with counter `k` fires exactly `k + 1`
times under fault-free wait cycles and is then retired; any further cycles
are never waited on. -/
theorem loop_single (k : Nat) :
    ∀ (sd pk : Nat) (t : Int) (sends0 : List (Nat × Nat)) (wc : Nat)
      (extra : List WaitCycle),
    txLoop (List.replicate (k + 1) (happyCycle 0) ++ extra)
        ⟨midW sd pk t (k : Int) sends0 wc, false, false⟩ =
      ⟨⟨[⟨sd, pk, t, 0⟩], 1, 1, [0], [0], [0], [], [],
          sends0 ++ List.replicate (k + 1) (sd, pk), wc + (k + 1)⟩,
        false, false⟩ := by
  induction k with
  | zero =>
    intro sd pk t sends0 wc extra
    have h0 : List.replicate (0 + 1) (happyCycle 0) ++ extra =
        happyCycle 0 :: extra := rfl
    rw [h0]
    have h1 := step_zero sd pk t sends0 wc extra
    simpa using h1
  | succ k ih =>
    intro sd pk t sends0 wc extra
    have h0 : List.replicate (k + 1 + 1) (happyCycle 0) ++ extra =
        happyCycle 0 :: (List.replicate (k + 1) (happyCycle 0) ++ extra) := rfl
    rw [h0]
    have hpos : (0 : Int) < ((k + 1 : Nat) : Int) := by positivity
    have h1 := step_pos sd pk t ((k + 1 : Nat) : Int) sends0 wc
      (List.replicate (k + 1) (happyCycle 0) ++ extra) hpos
    rw [h1]
    have hc : ((k + 1 : Nat) : Int) - 1 = (k : Int) := by push_cast; ring
    rw [hc]
    rw [ih sd pk t (sends0 ++ [(sd, pk)]) (wc + 1) extra]
    simp [List.replicate_succ, List.append_assoc]
    omega

/-- C1: a single command admitted with `repeat = r ≥ 0` is sent exactly
`max r 1` times (`1` for `r = 0` or `r = 1`, `r` for `r > 1` — the
admission-time pre-decrement plus the dispatch counter give `r`, not
`r + 1`, sends), the loop makes exactly that many wait calls even when
further ready cycles are available (the event is retired — its fd closed
and its wrapper freed in-loop — immediately after the final firing, so the
loop exits), and the run returns success. -/
theorem tx_repeat_send_count (sd pk : Nat) (t r : Int) (hr : 0 ≤ r)
    (extra : List WaitCycle) :
    (tx_main true [⟨sd, pk, t, r⟩] [happyAdmission]
        (List.replicate (max r.toNat 1) (happyCycle 0) ++ extra)).1 = 0 ∧
    (tx_main true [⟨sd, pk, t, r⟩] [happyAdmission]
        (List.replicate (max r.toNat 1) (happyCycle 0) ++ extra)).2.sends =
      List.replicate (max r.toNat 1) (sd, pk) ∧
    (tx_main true [⟨sd, pk, t, r⟩] [happyAdmission]
        (List.replicate (max r.toNat 1) (happyCycle 0) ++ extra)).2.waitCalls =
      max r.toNat 1 ∧
    (tx_main true [⟨sd, pk, t, r⟩] [happyAdmission]
        (List.replicate (max r.toNat 1) (happyCycle 0) ++ extra)).2.registry = [] ∧
    (tx_main true [⟨sd, pk, t, r⟩] [happyAdmission]
        (List.replicate (max r.toNat 1) (happyCycle 0) ++ extra)).2.closedFds = [0] ∧
    (tx_main true [⟨sd, pk, t, r⟩] [happyAdmission]
        (List.replicate (max r.toNat 1) (happyCycle 0) ++ extra)).2.frees = [0] := by
  obtain ⟨k, hk, harm⟩ : ∃ k : Nat, max r.toNat 1 = k + 1 ∧
      (arm_params ⟨sd, pk, t, r⟩).2 = ⟨sd, pk, t, (k : Int)⟩ := by
    rcases eq_or_ne r 0 with h0 | h0
    · exact ⟨0, by simp [h0], by simp [arm_params, h0]⟩
    · rcases eq_or_ne r 1 with h1 | h1
      · exact ⟨0, by simp [h1], by simp [arm_params, h1]⟩
      · have h2 : 1 < r := by omega
        refine ⟨r.toNat - 1, by omega, ?_⟩
        have hp : (0 : Int) < r := by omega
        have ha : (arm_params ⟨sd, pk, t, r⟩).2 = ⟨sd, pk, t, r - 1⟩ := by
          simp [arm_params, h0, h1, hp]
        rw [ha]
        have : ((r.toNat - 1 : Nat) : Int) = r - 1 := by omega
        rw [this]
  have base : admissionList [happyAdmission] 0 1 (initialWorld [⟨sd, pk, t, r⟩]) =
      (true, ⟨[(arm_params ⟨sd, pk, t, r⟩).2], 1, 1, [0], [], [], [⟨0, 0, 0⟩],
        [0], [], 0⟩) := rfl
  rw [harm] at base
  have hloop := loop_single k sd pk t [] 0 extra
  have hlen : ([⟨sd, pk, t, r⟩] : List packet_command).length = 1 := rfl
  refine ⟨?_, ?_, ?_, ?_, ?_, ?_⟩ <;>
    simp only [tx_main, Bool.not_true, Bool.false_eq_true, if_false, hlen,
      base, hk] <;>
    rw [show txLoop (List.replicate (k + 1) (happyCycle 0) ++ extra)
        ⟨⟨[⟨sd, pk, t, (k : Int)⟩], 1, 1, [0], [], [], [⟨0, 0, 0⟩], [0], [], 0⟩,
          false, false⟩ =
      ⟨⟨[⟨sd, pk, t, 0⟩], 1, 1, [0], [0], [0], [], [],
          [] ++ List.replicate (k + 1) (sd, pk), 0 + (k + 1)⟩,
        false, false⟩ from hloop] <;>
    simp [rx_events_free_all]

theorem tx_repeat_send_count_witness :
    (0 : Int) ≤ 3 ∧
    (tx_main true [⟨7, 9, 0, 3⟩] [happyAdmission]
        (List.replicate (max (3 : Int).toNat 1) (happyCycle 0) ++
          [happyCycle 0])).2.sends =
      List.replicate (max (3 : Int).toNat 1) (7, 9) := by
  refine ⟨by norm_num, ?_⟩
  exact (tx_repeat_send_count 7 9 0 3 (by norm_num) [happyCycle 0]).2.1
